import Mathlib

/-!
Shallow embedding of the aggregation core of the `switchr` repository
(Rust sources under `src/`): the project data model and list operations
(`src/models.rs`), the TTL cache (`src/cache.rs`), the scan coordinator
(`src/scanner/mod.rs`) and the background-refresh coordinator
(`src/project_manager.rs`), together with theorems settling the spec's
claims about them.

Modelling conventions:
- `PathBuf` and `String` are both Lean `String`s; `DateTime<Utc>` and
  `SystemTime` durations are `Nat` seconds (both are linearly ordered,
  which is all the code uses).
- Rust `u64` arithmetic is `Nat` with explicit wrapping modulo `2 ^ 64`
  where the source can overflow; a checked variant returning `Option`
  models the overflow panic of debug (overflow-checked) builds.
- Fallible operations return `Except`/`Option`; filesystem reality that
  the code merely observes (does the file exist, its mtime, its bytes,
  whether a syscall succeeds) is passed in as explicit state.
-/

namespace Switchr

/-- Mirror of `ProjectSource` from `src/models.rs`. -/
inductive ProjectSource where
  | Local
  | Cursor
  | GitHub
  | GitLab
deriving DecidableEq, Repr

/-- Mirror of `Project` from `src/models.rs`. -/
structure Project where
  name : String
  path : String
  last_modified : Option Nat
  source : ProjectSource
  github_url : Option String
  gitlab_url : Option String
deriving DecidableEq, Repr

/-- Mirror of `Project::new_local`. -/
def Project.new_local (name path : String) : Project :=
  ⟨name, path, none, ProjectSource.Local, none, none⟩

/-- Mirror of `Project::new_cursor`. -/
def Project.new_cursor (name path : String) : Project :=
  ⟨name, path, none, ProjectSource.Cursor, none, none⟩

/-- Mirror of `Project::new_github`. -/
def Project.new_github (name path url : String) : Project :=
  ⟨name, path, none, ProjectSource.GitHub, some url, none⟩

/-- Mirror of `Project::new_gitlab`. -/
def Project.new_gitlab (name path url : String) : Project :=
  ⟨name, path, none, ProjectSource.GitLab, none, some url⟩

/-- Mirror of `Project::with_last_modified`. -/
def Project.with_last_modified (p : Project) (t : Nat) : Project :=
  { p with last_modified := some t }

/-- Rust's `Ord::cmp` on a linearly ordered type, as an `Ordering`. -/
def lcmp {α : Type} [LinearOrder α] (a b : α) : Ordering :=
  if a < b then Ordering.lt else if b < a then Ordering.gt else Ordering.eq

/-- The comparator closure of `ProjectList::sort_by_last_modified`
(`src/models.rs` lines 142-150): descending on `last_modified` when both
are present, a present timestamp before an absent one, and ascending on
`name` when both are absent. -/
def cmpProject (a b : Project) : Ordering :=
  match a.last_modified, b.last_modified with
  | some ta, some tb => lcmp tb ta
  | some _, none => Ordering.lt
  | none, some _ => Ordering.gt
  | none, none => lcmp a.name b.name

/-- The non-strict relation a stable sort by `cmpProject` orders by:
`a` may stay before `b` iff the comparator does not say `Greater`. -/
def projLE (a b : Project) : Prop := cmpProject a b ≠ Ordering.gt

instance : DecidableRel projLE :=
  fun a b => inferInstanceAs (Decidable (cmpProject a b ≠ Ordering.gt))

/-- Mirror of `ProjectList::sort_by_last_modified` (`src/models.rs`). Rust's
`sort_by` is a stable sort, and a stable sort's output is uniquely
determined by the comparator, so insertion sort (which is stable) is an
extensionally exact model. -/
def sortByLastModified (ps : List Project) : List Project :=
  List.insertionSort projLE ps

/-- The set (here: list) of paths claimed by `Local`-sourced entries,
built at the start of `ProjectList::deduplicate` (`src/models.rs`). -/
def localPathsOf (ps : List Project) : List String :=
  (ps.filter fun p => p.source == ProjectSource.Local).map Project.path

/-- The keep-predicate of `ProjectList::deduplicate`: an entry is removed
iff its source is `GitHub` and its path is claimed by a `Local` entry. -/
def dedupKeep (localPaths : List String) (p : Project) : Bool :=
  !(p.source == ProjectSource.GitHub && localPaths.contains p.path)

/-- Mirror of `ProjectList::deduplicate` (`src/models.rs` lines 160-179): collect
the `Local` paths, then remove every `GitHub`-sourced entry whose path is
in that set, preserving the order of everything else. -/
def deduplicate (ps : List Project) : List Project :=
  ps.filter (dedupKeep (localPathsOf ps))

/-! ### Cache (`src/cache.rs`) -/

/-- Rust release-mode `u64` subtraction: wraps modulo `2 ^ 64`. -/
def u64Mod : Nat := 2 ^ 64

/-- Wrapping `u64` subtraction `a - b` (release builds, overflow checks
off); arguments are reduced modulo `2 ^ 64` as `u64` values are. -/
def subWrap (a b : Nat) : Nat :=
  (a % u64Mod + (u64Mod - b % u64Mod)) % u64Mod

/-- Checked `u64` subtraction `a - b` (debug builds, overflow checks on):
`none` is the "attempt to subtract with overflow" panic. -/
def subChecked (a b : Nat) : Option Nat :=
  if b ≤ a then some (a - b) else none

/-- What `Cache::is_cache_valid` observes about the backing file:
whether `path.exists()`, and the mtime in seconds since the epoch when
the `metadata` / `modified` / `duration_since(UNIX_EPOCH)` chain
succeeds (`none` when any of those steps fails). -/
structure FileInfo where
  present : Bool
  mtime : Option Nat
deriving DecidableEq, Repr

/-- Mirror of `Cache::is_cache_valid` (`src/cache.rs` lines 39-60), release-mode
arithmetic: false for a missing file or failed metadata chain, otherwise
`now - mtime < ttl` with wrapping `u64` subtraction. -/
def isCacheValid (fi : FileInfo) (now ttl : Nat) : Bool :=
  if !fi.present then false
  else
    match fi.mtime with
    | none => false
    | some m => subWrap now m < ttl

/-- Mirror of `Cache::is_cache_valid` under debug-mode (overflow-checked)
arithmetic: identical control flow, but the `now - mtime` subtraction
panics (`none`) when the mtime lies in the future. -/
def isCacheValidChecked (fi : FileInfo) (now ttl : Nat) : Option Bool :=
  if !fi.present then some false
  else
    match fi.mtime with
    | none => some false
    | some m => (subChecked now m).map (fun age => decide (age < ttl))

/-- What `Cache::load_projects` observes about the cache file: the
`is_cache_valid` inputs plus the bytes `fs::read` returns (`none` when
the read fails). -/
structure CacheFile where
  info : FileInfo
  content : Option (List Nat)
deriving DecidableEq, Repr

/-- Mirror of `Cache::load_projects` (`src/cache.rs` lines 62-76): `Ok None` when
`is_cache_valid` fails, a read error or a deserialize error otherwise
propagated as distinct hard errors, `Ok (Some list)` on success. The
`bincode` decoder is passed in abstractly as `deser`. -/
def loadProjects (cf : CacheFile) (deser : List Nat → Option (List Project))
    (now ttl : Nat) : Except String (Option (List Project)) :=
  if !isCacheValid cf.info now ttl then Except.ok none
  else
    match cf.content with
    | none => Except.error "read"
    | some bytes =>
      match deser bytes with
      | none => Except.error "deserialize"
      | some ps => Except.ok (some ps)

/-- The mutable filesystem state `Cache::atomic_write` acts on: the
target file's bytes (`none` = absent) and the number of leftover
temporary files in the cache directory. -/
structure CacheFs where
  target : Option (List Nat)
  tempCount : Nat
deriving DecidableEq, Repr

/-- Which of one attempt's fallible filesystem steps succeed:
`create_dir_all`, `File::create` of the temp file, `write_all`,
`sync_all`, and `fs::rename`. -/
structure AttemptEnv where
  createDirOk : Bool
  createOk : Bool
  writeOk : Bool
  syncOk : Bool
  renameOk : Bool
deriving DecidableEq, Repr

/-- One attempt succeeds iff every step of `atomic_write` does. -/
def AttemptEnv.allOk (e : AttemptEnv) : Bool :=
  e.createDirOk && e.createOk && e.writeOk && e.syncOk && e.renameOk

/-- Mirror of `Cache::atomic_write` (`src/cache.rs` lines 79-126): create the
parent directory, create a uniquely named temp file, write and sync the
data into it, then rename it over the target. Only the rename mutates
the target; a failed write or sync leaves the temp file behind, a failed
rename removes it. -/
def atomicWrite (env : AttemptEnv) (data : List Nat) (st : CacheFs) :
    Except Unit Unit × CacheFs :=
  if !env.createDirOk then (Except.error (), st)
  else if !env.createOk then (Except.error (), st)
  else if !env.writeOk then (Except.error (), { st with tempCount := st.tempCount + 1 })
  else if !env.syncOk then (Except.error (), { st with tempCount := st.tempCount + 1 })
  else if !env.renameOk then (Except.error (), st)
  else (Except.ok (), { st with target := some data })

/-- The observable outcome of `Cache::save_projects`: the returned
`Result`, how many `atomic_write` attempts ran, the backoff sleeps (in
milliseconds) performed between attempts, and the final filesystem
state. -/
structure SaveResult where
  result : Except Unit Unit
  attempts : Nat
  sleeps : List Nat
  finalState : CacheFs
deriving Repr

/-- Mirror of `Cache::save_projects` (`src/cache.rs` lines 128-150): the retry
loop `for attempt in 0..3`, re-running the whole `atomic_write` (temp
creation included) on failure, sleeping `1 << attempt` ms after each
failed attempt but the last, and surfacing the last error after three
failures. `envs n` is the filesystem's behaviour on attempt `n`. -/
def saveProjects (envs : Nat → AttemptEnv) (data : List Nat) (st0 : CacheFs) :
    SaveResult :=
  match atomicWrite (envs 0) data st0 with
  | (Except.ok _, st1) => ⟨Except.ok (), 1, [], st1⟩
  | (Except.error _, st1) =>
    match atomicWrite (envs 1) data st1 with
    | (Except.ok _, st2) => ⟨Except.ok (), 2, [1], st2⟩
    | (Except.error _, st2) =>
      match atomicWrite (envs 2) data st2 with
      | (Except.ok _, st3) => ⟨Except.ok (), 3, [1, 2], st3⟩
      | (Except.error _, st3) => ⟨Except.error (), 3, [1, 2], st3⟩

/-! ### Scan coordinator (`src/scanner/mod.rs`) -/

/-- The outcome of one scanner's `scan(config)` call: a produced list,
a returned `Err`, or a panic of the scanner's code. -/
inductive ScanOutcome where
  | ok : List Project → ScanOutcome
  | err : ScanOutcome
  | panicked : ScanOutcome
deriving DecidableEq, Repr

/-- A configured scanner: its `scanner_name()` and what its `scan`
does. -/
structure Scanner where
  name : String
  behavior : ScanOutcome
deriving DecidableEq, Repr

/-- The scanner names `scan_all_verbose`'s spawned threads know how to
dispatch: the three production scanners. -/
def knownNames : List String := ["local", "cursor", "github"]

/-- What one spawned thread computes: the built-in scanner selected by
name (`env` gives each built-in scanner's behaviour at this
configuration), or `Ok(ProjectList::new())` for an unknown name. -/
def threadResult (env : String → ScanOutcome) (name : String) : ScanOutcome :=
  if knownNames.contains name then env name else ScanOutcome.ok []

/-- The join loop of `scan_all_verbose`: `Ok` results are appended in
dispatch order, returned errors and caught panics contribute nothing. -/
def collectJoined : List ScanOutcome → List Project
  | [] => []
  | ScanOutcome.ok ps :: rest => ps ++ collectJoined rest
  | ScanOutcome.err :: rest => collectJoined rest
  | ScanOutcome.panicked :: rest => collectJoined rest

/-- The merge step both scan paths end with: `deduplicate` then
`sort_by_last_modified`. -/
def postProcess (ps : List Project) : List Project :=
  sortByLastModified (deduplicate ps)

/-- Mirror of `ScanManager::scan_all_sequential` (`src/scanner/mod.rs` lines
122-164), which runs the configured scanner objects in order with no
panic recovery: `none` models the coordinator itself crashing because a
scanner's `scan` panicked. -/
def scanSeq : List ScanOutcome → Option (List Project)
  | [] => some []
  | ScanOutcome.ok ps :: rest => (scanSeq rest).map (fun acc => ps ++ acc)
  | ScanOutcome.err :: rest => scanSeq rest
  | ScanOutcome.panicked :: _ => none

/-- Mirror of `ScanManager::scan_all_verbose` (`src/scanner/mod.rs` lines 37-120):
spawn one thread per configured scanner dispatching the *built-in*
scanner of that name; if any configured name is unknown, fall back to
`scan_all_sequential` over the configured scanner objects; otherwise
join every thread, catching panics, and merge. `none` = the coordinator
crashed; `some (Except.ok l)` = it returned `Ok(l)`. -/
def scanAllVerbose (scanners : List Scanner) (env : String → ScanOutcome) :
    Option (Except Unit (List Project)) :=
  if scanners.any (fun s => !knownNames.contains s.name) then
    match scanSeq (scanners.map Scanner.behavior) with
    | none => none
    | some ps => some (Except.ok (postProcess ps))
  else
    some (Except.ok (postProcess (collectJoined
      (scanners.map (fun s => threadResult env s.name)))))

/-! ### Background refresh (`src/project_manager.rs`) -/

/-- Mirror of `get_projects_with_background_refresh` (`src/project_manager.rs`
lines 57-93). Returns the foreground list and, when a refresh was
started, the value the returned channel will eventually yield: `some
fresh` if the background `get_projects_fresh` succeeds, `none` if it
fails (the send is skipped, the handle never yields). `refresh` is the
background cycle's outcome. -/
def getProjectsWithBackgroundRefresh (cf : CacheFile)
    (deser : List Nat → Option (List Project)) (now ttl : Nat)
    (refresh : Except Unit (List Project)) :
    Except String (List Project × Option (Option (List Project))) :=
  match loadProjects cf deser now ttl with
  | Except.error e => Except.error e
  | Except.ok copt =>
    let cached := copt.getD []
    if cached.isEmpty || !isCacheValid cf.info now ttl then
      Except.ok (cached, some (match refresh with
        | Except.ok l => some l
        | Except.error _ => none))
    else
      Except.ok (cached, none)

/-! ### Shared lemmas about `deduplicate` -/

/-- An entry that is not `GitHub`-sourced always passes the dedup
keep-predicate. -/
theorem dedupKeep_of_not_github {p : Project} (lp : List String)
    (h : p.source ≠ ProjectSource.GitHub) : dedupKeep lp p = true := by
  have hb : (p.source == ProjectSource.GitHub) = false := by
    simpa using h
  simp [dedupKeep, hb]

/-- A `Local`-sourced member of the list contributes its path to the
local-path set. -/
theorem path_mem_localPathsOf {p : Project} {ps : List Project}
    (hp : p ∈ ps) (hs : p.source = ProjectSource.Local) :
    p.path ∈ localPathsOf ps := by
  refine List.mem_map_of_mem Project.path ?_
  exact List.mem_filter.mpr ⟨hp, by simp [hs]⟩

/-- Deduplication does not change the set of `Local` paths, because it
only ever drops `GitHub`-sourced entries. -/
theorem localPathsOf_deduplicate (ps : List Project) :
    localPathsOf (deduplicate ps) = localPathsOf ps := by
  unfold localPathsOf deduplicate
  rw [List.filter_filter]
  congr 1
  refine List.filter_congr ?_
  intro p _
  by_cases hl : p.source = ProjectSource.Local
  · have : dedupKeep (localPathsOf ps) p = true := by
      refine dedupKeep_of_not_github _ ?_
      simp [hl]
    simp [this, hl]
  · have : (p.source == ProjectSource.Local) = false := by simpa using hl
    simp [this]

/-- A `Local` project and a `GitLab` project sharing the path `/p`,
used to exercise `deduplicate` on a local/remote collision that the
GitHub-only removal rule does not cover. -/
def pLocalA : Project := Project.new_local "proj" "/p"

/-- The `GitLab`-sourced twin of `pLocalA` at the same path. -/
def pGitlabA : Project := Project.new_gitlab "proj" "/p" "https://gitlab.com/u/proj"

/-- The `GitHub`-sourced twin of `pLocalA` at the same path. -/
def pGithubA : Project := Project.new_github "proj" "/p" "https://github.com/u/proj"

/-- C1 counterexample: a `Local` entry and a `GitLab` entry (a
remote-hosted variant) share the path `/p`, yet `deduplicate` keeps
both — the claim that the remote-hosted entry is removed fails for the
`GitLab` variant, because the code only removes `GitHub` entries. -/
theorem dedup_keeps_gitlab_sharing_local_path :
    deduplicate [pLocalA, pGitlabA] = [pLocalA, pGitlabA] ∧
    pLocalA.source = ProjectSource.Local ∧
    pGitlabA.source = ProjectSource.GitLab ∧
    pLocalA.path = pGitlabA.path ∧
    pGitlabA ≠ pLocalA := by
  refine ⟨by decide, rfl, rfl, rfl, by decide⟩

/-- C1 amended: when a `Local` entry and a `GitHub`-sourced entry share
the same path, `deduplicate` removes the `GitHub` entry and keeps the
`Local` one. -/
theorem dedup_local_wins_over_github (ps : List Project) (p q : Project)
    (hp : p ∈ ps) (_hq : q ∈ ps) (hps : p.source = ProjectSource.Local)
    (hqs : q.source = ProjectSource.GitHub) (hpath : q.path = p.path) :
    p ∈ deduplicate ps ∧ q ∉ deduplicate ps := by
  constructor
  · refine List.mem_filter.mpr ⟨hp, ?_⟩
    refine dedupKeep_of_not_github _ ?_
    simp [hps]
  · intro hmem
    have hkeep := (List.mem_filter.mp hmem).2
    have hin : q.path ∈ localPathsOf ps := hpath ▸ path_mem_localPathsOf hp hps
    have : dedupKeep (localPathsOf ps) q = false := by
      simp [dedupKeep, hqs, List.contains, List.elem_iff]
      exact hin
    rw [this] at hkeep
    exact Bool.false_ne_true hkeep

/-- Witness for the amended C1 at a concrete collision. -/
theorem dedup_local_wins_over_github_witness :
    pLocalA ∈ deduplicate [pLocalA, pGithubA] ∧
    pGithubA ∉ deduplicate [pLocalA, pGithubA] :=
  dedup_local_wins_over_github [pLocalA, pGithubA] pLocalA pGithubA
    (by decide) (by decide) rfl rfl rfl

/-- C8: `deduplicate` is idempotent — the `Local` path set is unchanged
by the first pass, so the second pass filters by the same predicate and
removes nothing further. -/
theorem dedup_idempotent (ps : List Project) :
    deduplicate (deduplicate ps) = deduplicate ps := by
  conv_lhs => rw [deduplicate, localPathsOf_deduplicate]
  rw [deduplicate, List.filter_filter]
  refine List.filter_congr ?_
  intro p _
  exact Bool.and_self (dedupKeep (localPathsOf ps) p)

/-- C10: `deduplicate` only removes `GitHub`-sourced entries — its
output is a sublist of its input, and restricted to entries whose
source is not `GitHub` (that is, `Local`, `Cursor` or `GitLab`) the
output is the input, unchanged and in the original relative order. -/
theorem dedup_only_removes_github (ps : List Project) :
    List.Sublist (deduplicate ps) ps ∧
    (deduplicate ps).filter (fun p => !(p.source == ProjectSource.GitHub)) =
      ps.filter (fun p => !(p.source == ProjectSource.GitHub)) := by
  refine ⟨List.filter_sublist ps, ?_⟩
  rw [deduplicate, List.filter_filter]
  refine List.filter_congr ?_
  intro p _
  by_cases hg : p.source = ProjectSource.GitHub
  · simp [hg, dedupKeep]
  · have hb : (p.source == ProjectSource.GitHub) = false := by simpa using hg
    simp [hb, dedupKeep]

/-! ### Shared lemmas about the sort comparator -/

theorem lcmp_eq_lt {α : Type} [LinearOrder α] {a b : α} :
    lcmp a b = Ordering.lt ↔ a < b := by
  unfold lcmp
  by_cases h1 : a < b
  · simp [h1]
  · by_cases h2 : b < a
    · simp [h1, h2]
    · simp [h1, h2]

theorem lcmp_eq_gt {α : Type} [LinearOrder α] {a b : α} :
    lcmp a b = Ordering.gt ↔ b < a := by
  unfold lcmp
  by_cases h1 : a < b
  · simp [h1, asymm h1]
  · by_cases h2 : b < a
    · simp [h1, h2]
    · simp [h1, h2]

theorem lcmp_eq_eq {α : Type} [LinearOrder α] {a b : α} :
    lcmp a b = Ordering.eq ↔ a = b := by
  unfold lcmp
  by_cases h1 : a < b
  · simp [h1, ne_of_lt h1]
  · by_cases h2 : b < a
    · simp [h1, h2, ne_of_gt h2]
    · simp [h1, h2, le_antisymm (le_of_not_lt h2) (le_of_not_lt h1)]

theorem lcmp_swap {α : Type} [LinearOrder α] (a b : α) :
    lcmp b a = (lcmp a b).swap := by
  rcases lt_trichotomy a b with h | h | h
  · rw [lcmp_eq_lt.mpr h, lcmp_eq_gt.mpr h]
    rfl
  · rw [lcmp_eq_eq.mpr h, lcmp_eq_eq.mpr h.symm]
    rfl
  · rw [lcmp_eq_gt.mpr h, lcmp_eq_lt.mpr h]
    rfl

theorem lcmp_refl {α : Type} [LinearOrder α] (a : α) : lcmp a a = Ordering.eq :=
  lcmp_eq_eq.mpr rfl

/-- Reflexivity of the comparator: every project compares `Equal` to
itself. -/
theorem cmpProject_refl (a : Project) : cmpProject a a = Ordering.eq := by
  rcases a with ⟨na, pa, ma, sa, ua, va⟩
  cases ma <;> simp [cmpProject, lcmp_refl]

/-- Swapping the operands swaps the comparator's verdict. -/
theorem cmpProject_swap (a b : Project) :
    cmpProject b a = (cmpProject a b).swap := by
  rcases a with ⟨na, pa, ma, sa, ua, va⟩
  rcases b with ⟨nb, pb, mb, sb, ub, vb⟩
  cases ma <;> cases mb <;>
    first
      | rfl
      | (exact lcmp_swap _ _)

/-- The comparator's strict part is transitive. -/
theorem cmpProject_lt_trans {a b c : Project}
    (hab : cmpProject a b = Ordering.lt) (hbc : cmpProject b c = Ordering.lt) :
    cmpProject a c = Ordering.lt := by
  rcases a with ⟨na, pa, ma, sa, ua, va⟩
  rcases b with ⟨nb, pb, mb, sb, ub, vb⟩
  rcases c with ⟨nc, pc, mc, sc, uc, vc⟩
  cases ma with
  | none =>
    cases mb with
    | some tb => exact absurd hab (by simp [cmpProject])
    | none =>
      cases mc with
      | some tc => exact absurd hbc (by simp [cmpProject])
      | none =>
        simp only [cmpProject] at hab hbc ⊢
        rw [lcmp_eq_lt] at hab hbc ⊢
        exact lt_trans hab hbc
  | some ta =>
    cases mc with
    | none => simp [cmpProject]
    | some tc =>
      cases mb with
      | none => exact absurd hbc (by simp [cmpProject])
      | some tb =>
        simp only [cmpProject] at hab hbc ⊢
        rw [lcmp_eq_lt] at hab hbc ⊢
        exact lt_trans hbc hab

/-- A comparator-`Equal` left operand can be replaced: projects that
compare `Equal` compare identically against everything. -/
theorem cmpProject_congr_left {a b : Project}
    (hab : cmpProject a b = Ordering.eq) (c : Project) :
    cmpProject a c = cmpProject b c := by
  rcases a with ⟨na, pa, ma, sa, ua, va⟩
  rcases b with ⟨nb, pb, mb, sb, ub, vb⟩
  rcases c with ⟨nc, pc, mc, sc, uc, vc⟩
  cases ma with
  | none =>
    cases mb with
    | none =>
      have hn : na = nb := by
        simpa [cmpProject, lcmp_eq_eq] using hab
      cases mc <;> simp [cmpProject, hn]
    | some tb => exact absurd hab (by simp [cmpProject])
  | some ta =>
    cases mb with
    | none => exact absurd hab (by simp [cmpProject])
    | some tb =>
      have ht : tb = ta := by
        simpa [cmpProject, lcmp_eq_eq] using hab
      cases mc <;> simp [cmpProject, ht]

/-- Totality of `projLE`: of any two projects, one may precede the other. -/
instance : IsTotal Project projLE where
  total a b := by
    unfold projLE
    by_cases h : cmpProject a b = Ordering.gt
    · right
      rw [cmpProject_swap, h]
      simp [Ordering.swap]
    · left
      exact h

/-- Transitivity of `projLE`, as required for `insertionSort` to sort. -/
instance : IsTrans Project projLE where
  trans a b c hab hbc := by
    unfold projLE at *
    intro hac
    match h1 : cmpProject a b with
    | Ordering.gt => exact hab h1
    | Ordering.eq =>
      rw [cmpProject_congr_left h1 c] at hac
      exact hbc hac
    | Ordering.lt =>
      match h2 : cmpProject b c with
      | Ordering.gt => exact hbc h2
      | Ordering.eq =>
        have h4 := cmpProject_congr_left h2 a
        rw [cmpProject_swap a b, cmpProject_swap a c] at h4
        have h5 := congrArg Ordering.swap h4
        rw [Ordering.swap_swap, Ordering.swap_swap] at h5
        rw [← h5, h1] at hac
        cases hac
      | Ordering.lt =>
        rw [cmpProject_lt_trans h1 h2] at hac
        cases hac

/-- A project with timestamp 20, for concrete sort checks. -/
def pT1 : Project := (Project.new_local "b" "/b").with_last_modified 20

/-- A project with timestamp 10, for concrete sort checks. -/
def pT2 : Project := (Project.new_local "a" "/a").with_last_modified 10

/-- A project without a timestamp, for concrete sort checks. -/
def pNone : Project := Project.new_local "c" "/c"

/-- C7: the comparator of `sort_by_last_modified` orders two timestamped
entries descending by timestamp, places a timestamped entry before an
untimestamped one, orders two untimestamped entries ascending by name,
and is a lawful strict total order on its comparison classes: reflexive
verdict `Equal`, operand swap inverts the verdict (asymmetry and
totality), and the strict part is transitive; re-sorting an
already-sorted list is a no-op. -/
theorem sort_comparator_spec :
    (∀ a b ta tb, a.last_modified = some ta → b.last_modified = some tb →
      (cmpProject a b = Ordering.lt ↔ tb < ta)) ∧
    (∀ a b ta, a.last_modified = some ta → b.last_modified = none →
      cmpProject a b = Ordering.lt) ∧
    (∀ a b tb, a.last_modified = none → b.last_modified = some tb →
      cmpProject a b = Ordering.gt) ∧
    (∀ a b, a.last_modified = none → b.last_modified = none →
      (cmpProject a b = Ordering.lt ↔ a.name < b.name)) ∧
    (∀ a, cmpProject a a = Ordering.eq) ∧
    (∀ a b, cmpProject b a = (cmpProject a b).swap) ∧
    (∀ a b c, cmpProject a b = Ordering.lt → cmpProject b c = Ordering.lt →
      cmpProject a c = Ordering.lt) ∧
    (∀ l, sortByLastModified (sortByLastModified l) = sortByLastModified l) := by
  refine ⟨?_, ?_, ?_, ?_, cmpProject_refl, cmpProject_swap,
    fun a b c => cmpProject_lt_trans, ?_⟩
  · intro a b ta tb ha hb
    simp only [cmpProject, ha, hb]
    exact lcmp_eq_lt
  · intro a b ta ha hb
    simp only [cmpProject, ha, hb]
  · intro a b tb ha hb
    simp only [cmpProject, ha, hb]
  · intro a b ha hb
    simp only [cmpProject, ha, hb]
    exact lcmp_eq_lt
  · intro l
    exact List.Sorted.insertionSort_eq (List.sorted_insertionSort projLE l)

/-- Witness for C7 at concrete projects: 20 beats 10, a timestamp beats
none, re-sorting is a no-op, and the sorted order is
[newest, older, untimestamped]. -/
theorem sort_comparator_spec_witness :
    cmpProject pT1 pT2 = Ordering.lt ∧
    cmpProject pT1 pNone = Ordering.lt ∧
    sortByLastModified (sortByLastModified [pNone, pT2, pT1]) =
      sortByLastModified [pNone, pT2, pT1] ∧
    sortByLastModified [pNone, pT2, pT1] = [pT1, pT2, pNone] :=
  ⟨(sort_comparator_spec.1 pT1 pT2 20 10 rfl rfl).mpr (by decide),
   sort_comparator_spec.2.1 pT1 pNone 20 rfl rfl,
   sort_comparator_spec.2.2.2.2.2.2.2 [pNone, pT2, pT1],
   by decide⟩

/-! ### Cache claims -/

/-- Wrapping subtraction agrees with true subtraction when no underflow occurs. -/
theorem subWrap_of_le {a b : Nat} (hb : b ≤ a) (ha : a < u64Mod) :
    subWrap a b = a - b := by
  unfold subWrap u64Mod at *
  have hb2 : b < 2 ^ 64 := lt_of_le_of_lt hb ha
  rw [Nat.mod_eq_of_lt ha, Nat.mod_eq_of_lt hb2]
  omega

/-- C6 divergence: for a file whose modification time lies in the
future, the unchecked `u64` subtraction `now - mtime` in
`is_cache_valid` underflows. In overflow-checked (debug/test) builds the
subtraction panics; in release builds it wraps to an enormous age, and
with a large enough TTL the file is even reported *valid*. Either way
the claimed behaviour — never panic, treat as invalid — does not hold.
Concretely with `now = 100`: a file modified at 101 panics under checked
arithmetic, and a file modified at 102 is reported valid under wrapping
arithmetic when `ttl = 2 ^ 64 - 1`. -/
theorem isCacheValid_future_mtime_divergence :
    isCacheValidChecked ⟨true, some 101⟩ 100 300 = none ∧
    isCacheValid ⟨true, some 102⟩ 100 (u64Mod - 1) = true ∧
    100 < 101 ∧ 100 < 102 := by
  refine ⟨by decide, ?_, by decide, by decide⟩
  have : subWrap 100 102 = u64Mod - 2 := by
    unfold subWrap u64Mod
    norm_num
  simp [isCacheValid, this, u64Mod]

/-- C4: `load_projects` returns `Ok None` for an absent backing file and
for a TTL-expired one, while a present, TTL-valid file whose bytes fail
to deserialize surfaces the distinct hard error `"deserialize"` — never
`None`. -/
theorem loadProjects_spec (cf : CacheFile)
    (deser : List Nat → Option (List Project)) (now ttl : Nat) :
    (cf.info.present = false → loadProjects cf deser now ttl = Except.ok none) ∧
    (∀ m, cf.info.mtime = some m → m ≤ now → now < u64Mod → ttl ≤ now - m →
      loadProjects cf deser now ttl = Except.ok none) ∧
    (∀ bytes, isCacheValid cf.info now ttl = true → cf.content = some bytes →
      deser bytes = none →
      loadProjects cf deser now ttl = Except.error "deserialize") := by
  refine ⟨?_, ?_, ?_⟩
  · intro h
    simp [loadProjects, isCacheValid, h]
  · intro m hm hle hlt httl
    have hv : isCacheValid cf.info now ttl = false := by
      simp only [isCacheValid, hm]
      rw [subWrap_of_le hle hlt]
      simp
      intro _
      exact httl
    simp [loadProjects, hv]
  · intro bytes hv hc hd
    simp [loadProjects, hv, hc, hd]

/-- Witness for C4: an absent file misses, a 150-second-old file with a
100-second TTL misses, and a fresh-but-corrupt file errors. -/
theorem loadProjects_spec_witness :
    loadProjects ⟨⟨false, none⟩, none⟩ (fun _ => none) 1000 100 = Except.ok none ∧
    loadProjects ⟨⟨true, some 850⟩, some [1]⟩ (fun _ => some []) 1000 100 = Except.ok none ∧
    loadProjects ⟨⟨true, some 990⟩, some [1]⟩ (fun _ => none) 1000 100 =
      Except.error "deserialize" :=
  ⟨(loadProjects_spec ⟨⟨false, none⟩, none⟩ (fun _ => none) 1000 100).1 rfl,
   (loadProjects_spec ⟨⟨true, some 850⟩, some [1]⟩ (fun _ => some []) 1000 100).2.1
     850 rfl (by decide) (by norm_num [u64Mod]) (by decide),
   (loadProjects_spec ⟨⟨true, some 990⟩, some [1]⟩ (fun _ => none) 1000 100).2.2
     [1] (by norm_num [isCacheValid, subWrap, u64Mod]) rfl rfl⟩

/-- A present cache file whose mtime (0) is far older than the TTL at
`now = 1000`, holding bytes that deserialize fine. -/
def staleFile : CacheFile := ⟨⟨true, some 0⟩, some [7]⟩

/-- A decoder stub mapping the stale file's bytes to one project. -/
def deserStub : List Nat → Option (List Project) :=
  fun b => if b = [7] then some [Project.new_local "proj" "/p"] else none

/-- C3 divergence: with a present but TTL-expired cache file whose
contents deserialize to a nonempty list, `get_projects_with_background_refresh`
returns the *empty* list on the foreground path (plus a refresh handle),
because `load_projects` applies the TTL check and yields `None` for a
stale file — contradicting the claim (and the function's own doc
comment) that the cached list is returned even when stale and that an
empty list occurs only when no cache exists. The handle value `none`
also shows a failed background refresh surfaces as a never-yielding
handle, not as a foreground error. -/
theorem backgroundRefresh_stale_returns_empty :
    getProjectsWithBackgroundRefresh staleFile deserStub 1000 100 (Except.error ())
      = Except.ok ([], some none) ∧
    staleFile.info.present = true ∧
    deserStub [7] = some [Project.new_local "proj" "/p"] ∧
    staleFile.content = some [7] ∧
    isCacheValid staleFile.info 1000 100 = false := by
  refine ⟨rfl, rfl, by decide, rfl, rfl⟩

/-! ### Scan coordinator claims -/

/-- The successful payload of a scan outcome, if any. -/
def scanOk : ScanOutcome → Option (List Project)
  | ScanOutcome.ok ps => some ps
  | ScanOutcome.err => none
  | ScanOutcome.panicked => none

/-- The join loop keeps exactly the successful outcomes' projects, in
order. -/
theorem collectJoined_eq_flatten (l : List ScanOutcome) :
    collectJoined l = (l.filterMap scanOk).flatten := by
  induction l with
  | nil => rfl
  | cons h t ih => cases h <;> simp [collectJoined, scanOk, ih]

/-- A `Local` project at `/repo`, produced by the local scanner. -/
def pLocalB : Project := Project.new_local "app" "/repo"

/-- A `GitHub` project at the same `/repo` path, produced by the GitHub
scanner. -/
def pGithubB : Project := Project.new_github "app" "/repo" "https://github.com/u/app"

/-- A configuration of the built-in scanners where local and GitHub
succeed (with a shared path) and cursor fails. -/
def envCE : String → ScanOutcome :=
  fun n =>
    if n = "local" then ScanOutcome.ok [pLocalB]
    else if n = "github" then ScanOutcome.ok [pGithubB]
    else ScanOutcome.err

/-- The production scanner set under the behaviour `envCE`. -/
def scannersCE : List Scanner :=
  [⟨"local", envCE "local"⟩, ⟨"cursor", envCE "cursor"⟩, ⟨"github", envCE "github"⟩]

/-- C5 counterexample: with the cursor scanner failing and the two
successful scanners contributing a `Local` and a `GitHub` project at the
same path, `scan_all` returns only the `Local` project — not the union
of the successful scanners' projects, because the coordinator
deduplicates (and sorts) before returning. -/
theorem scanAll_not_union_counterexample :
    scanAllVerbose scannersCE envCE = some (Except.ok [pLocalB]) ∧
    envCE "local" = ScanOutcome.ok [pLocalB] ∧
    envCE "github" = ScanOutcome.ok [pGithubB] ∧
    envCE "cursor" = ScanOutcome.err ∧
    pGithubB ∉ [pLocalB] := by
  refine ⟨rfl, rfl, rfl, rfl, by decide⟩

/-- C5 amended: for any configuration built from the known scanner
names (the production set), `scan_all` never crashes and never returns
an error — even when scanners fail or panic — and returns `Ok` of the
deduplicated, sorted concatenation of exactly the successful scanners'
projects; a failed or panicked scanner contributes zero projects. -/
theorem scanAll_isolation (scanners : List Scanner) (env : String → ScanOutcome)
    (hknown : ∀ s ∈ scanners, knownNames.contains s.name = true) :
    scanAllVerbose scanners env =
      some (Except.ok (postProcess
        (((scanners.map (fun s => env s.name)).filterMap scanOk).flatten))) := by
  have hany : (scanners.any fun s => !knownNames.contains s.name) = false := by
    rw [List.any_eq_false]
    intro s hs
    simp [List.elem_iff.mp (hknown s hs)]
  have hmap : scanners.map (fun s => threadResult env s.name) =
      scanners.map (fun s => env s.name) := by
    refine List.map_congr_left ?_
    intro s hs
    simp [threadResult, List.elem_iff.mp (hknown s hs)]
  simp only [scanAllVerbose, hany, Bool.false_eq_true, if_false,
    hmap, collectJoined_eq_flatten]

/-- Witness for the amended C5, at the production names with a failing
cursor scanner. -/
theorem scanAll_isolation_witness :
    scanAllVerbose scannersCE envCE =
      some (Except.ok (postProcess
        (((scannersCE.map (fun s => envCE s.name)).filterMap scanOk).flatten))) :=
  scanAll_isolation scannersCE envCE (by decide)

/-! ### Save retry-loop claims -/

/-- An `atomic_write` attempt succeeds exactly when every one of its
filesystem steps does. -/
theorem atomicWrite_fst_ok (env : AttemptEnv) (data : List Nat) (st : CacheFs) :
    (atomicWrite env data st).1 = Except.ok () ↔ env.allOk = true := by
  rcases env with ⟨cd, c, w, sy, r⟩
  cases cd <;> cases c <;> cases w <;> cases sy <;> cases r <;>
    simp [atomicWrite, AttemptEnv.allOk]

/-- A successful `atomic_write` installs exactly the written data as the
target file. -/
theorem atomicWrite_ok_target (env : AttemptEnv) (data : List Nat) (st : CacheFs)
    (h : (atomicWrite env data st).1 = Except.ok ()) :
    (atomicWrite env data st).2.target = some data := by
  rcases env with ⟨cd, c, w, sy, r⟩
  cases cd <;> cases c <;> cases w <;> cases sy <;> cases r <;>
    simp_all [atomicWrite]

/-- A failed `atomic_write` leaves the target file untouched: only the
final rename ever mutates it. -/
theorem atomicWrite_error_target (env : AttemptEnv) (data : List Nat) (st : CacheFs)
    (h : (atomicWrite env data st).1 = Except.error ()) :
    (atomicWrite env data st).2.target = st.target := by
  rcases env with ⟨cd, c, w, sy, r⟩
  cases cd <;> cases c <;> cases w <;> cases sy <;> cases r <;>
    simp_all [atomicWrite]

/-- C9: `save_projects` runs at most 3 whole-write attempts, succeeds
iff one of the first three attempts' filesystem steps all succeed,
sleeps strictly increasing backoffs between attempts, only ever leaves
the target as the old file or the fully new data, and on a hard error
(which occurs only after all 3 attempts) the previously existing cache
file is intact — never partially written. -/
theorem saveProjects_spec (envs : Nat → AttemptEnv) (data : List Nat) (st : CacheFs) :
    (saveProjects envs data st).attempts ≤ 3 ∧
    ((saveProjects envs data st).result = Except.ok () ↔
      ((envs 0).allOk = true ∨ (envs 1).allOk = true ∨ (envs 2).allOk = true)) ∧
    List.Chain' (fun x y => x < y) (saveProjects envs data st).sleeps ∧
    ((saveProjects envs data st).finalState.target = st.target ∨
      (saveProjects envs data st).finalState.target = some data) ∧
    ((saveProjects envs data st).result = Except.error () →
      (saveProjects envs data st).attempts = 3 ∧
      (saveProjects envs data st).finalState.target = st.target) := by
  have hfst0 := atomicWrite_fst_ok (envs 0) data st
  have hokt0 := atomicWrite_ok_target (envs 0) data st
  have herrt0 := atomicWrite_error_target (envs 0) data st
  rcases h0 : atomicWrite (envs 0) data st with ⟨r0, st1⟩
  rw [h0] at hfst0 hokt0 herrt0
  cases r0 with
  | ok u =>
    cases u
    have hall0 : (envs 0).allOk = true := hfst0.mp rfl
    have htgt : st1.target = some data := hokt0 rfl
    simp [saveProjects, h0, hall0, htgt]
  | error e =>
    cases e
    have htgt1 : st1.target = st.target := herrt0 rfl
    have hne0 : ¬(envs 0).allOk = true := fun hc => by
      have := hfst0.mpr hc
      cases this
    have hfst1 := atomicWrite_fst_ok (envs 1) data st1
    have hokt1 := atomicWrite_ok_target (envs 1) data st1
    have herrt1 := atomicWrite_error_target (envs 1) data st1
    rcases h1 : atomicWrite (envs 1) data st1 with ⟨r1, st2⟩
    rw [h1] at hfst1 hokt1 herrt1
    cases r1 with
    | ok u =>
      cases u
      have hall1 : (envs 1).allOk = true := hfst1.mp rfl
      have htgt : st2.target = some data := hokt1 rfl
      simp [saveProjects, h0, h1, hall1, htgt, hne0]
    | error e =>
      cases e
      have htgt2 : st2.target = st.target := (herrt1 rfl).trans htgt1
      have hne1 : ¬(envs 1).allOk = true := fun hc => by
        have := hfst1.mpr hc
        cases this
      have hfst2 := atomicWrite_fst_ok (envs 2) data st2
      have hokt2 := atomicWrite_ok_target (envs 2) data st2
      have herrt2 := atomicWrite_error_target (envs 2) data st2
      rcases h2 : atomicWrite (envs 2) data st2 with ⟨r2, st3⟩
      rw [h2] at hfst2 hokt2 herrt2
      cases r2 with
      | ok u =>
        cases u
        have hall2 : (envs 2).allOk = true := hfst2.mp rfl
        have htgt : st3.target = some data := hokt2 rfl
        simp [saveProjects, h0, h1, h2, hall2, htgt, hne0, hne1]
      | error e =>
        cases e
        have htgt3 : st3.target = st.target := (herrt2 rfl).trans htgt2
        have hne2 : ¬(envs 2).allOk = true := fun hc => by
          have := hfst2.mpr hc
          cases this
        simp [saveProjects, h0, h1, h2, htgt3, hne0, hne1, hne2]

/-- An attempt environment whose `create_dir_all` step always fails. -/
def failEnv : AttemptEnv := ⟨false, true, true, true, true⟩

/-- Witness for C9: with every attempt failing at directory creation,
the save surfaces a hard error after exactly 3 attempts and the
previously existing cache file `[9]` is intact. -/
theorem saveProjects_spec_witness :
    (saveProjects (fun _ => failEnv) [1] ⟨some [9], 0⟩).attempts = 3 ∧
    (saveProjects (fun _ => failEnv) [1] ⟨some [9], 0⟩).finalState.target = some [9] := by
  have h := (saveProjects_spec (fun _ => failEnv) [1] ⟨some [9], 0⟩).2.2.2.2 rfl
  exact ⟨h.1, h.2⟩

end Switchr
